import Mathlib

/-
  Verification development for the `dominion_energy` Home Assistant
  integration (custom_components/dominion_energy).

  The definitions below are a shallow embedding of the coordinator module
  (coordinator.py) and its constants (const.py):

  * Python `float` arithmetic is idealised as exact rational arithmetic (ℚ);
    `round(x, 2)` becomes `round2` below (round-to-nearest on hundredths).
  * `datetime.date` / naive `datetime` values become the `Date` / `Timestamp`
    structures with the lexicographic order of their components.  The
    coordinator stores statistics timestamps through `dt_util.as_utc` and
    reads them back through `astimezone(local)`; that round trip is the
    identity on the local wall-clock representation (an order-preserving
    bijection), so the embedding keeps the naive local representation
    throughout.
  * Fallible API calls (`async_get_interval_usage`, `async_get_bill_forecast`)
    become `Except ApiFailure …` values / functions; the `except ApiError`
    handlers of coordinator.py become matches on `.error`.
-/

/-- Calendar date (models `datetime.date`). -/
structure Date where
  year : ℕ
  month : ℕ
  day : ℕ
deriving DecidableEq, Repr

/-- Naive local timestamp (models `datetime.datetime` as produced by the
dompower parser: local wall-clock fields). -/
structure Timestamp where
  year : ℕ
  month : ℕ
  day : ℕ
  hour : ℕ
  minute : ℕ
  second : ℕ
  microsecond : ℕ
deriving DecidableEq, Repr

/-- Lexicographic key of a date: `datetime.date` ordering. -/
abbrev DateKey := ℕ ×ₗ ℕ ×ₗ ℕ

def Date.key (d : Date) : DateKey := toLex (d.year, toLex (d.month, d.day))

/-- The calendar date of a timestamp (`datetime.date()`). -/
def Timestamp.toDate (t : Timestamp) : Date := ⟨t.year, t.month, t.day⟩

/-- Lexicographic key of the time-of-day components. -/
abbrev TimeKey := ℕ ×ₗ ℕ ×ₗ ℕ ×ₗ ℕ

def Timestamp.timeKey (t : Timestamp) : TimeKey :=
  toLex (t.hour, toLex (t.minute, toLex (t.second, t.microsecond)))

/-- Lexicographic key of a timestamp: `datetime.datetime` ordering
(date first, then time of day). -/
abbrev TsKey := DateKey ×ₗ TimeKey

def Timestamp.key (t : Timestamp) : TsKey := toLex (t.toDate.key, t.timeKey)

/-- `interval.timestamp.replace(minute=0, second=0, microsecond=0)`:
truncation of a timestamp to the start of its hour. -/
def Timestamp.hourStart (t : Timestamp) : Timestamp :=
  { t with minute := 0, second := 0, microsecond := 0 }

/-- Gregorian leap-year rule (as implemented by `datetime`). -/
def isLeapYear (y : ℕ) : Bool :=
  y % 4 == 0 && (y % 100 != 0 || y % 400 == 0)

/-- Number of days in a month (as implemented by `datetime`). -/
def daysInMonth (y m : ℕ) : ℕ :=
  if m = 2 then (if isLeapYear y then 29 else 28)
  else if m = 4 ∨ m = 6 ∨ m = 9 ∨ m = 11 then 30
  else 31

/-- `d + timedelta(days=1)` on calendar dates. -/
def Date.nextDay (d : Date) : Date :=
  if d.day < daysInMonth d.year d.month then { d with day := d.day + 1 }
  else if d.month < 12 then ⟨d.year, d.month + 1, 1⟩
  else ⟨d.year + 1, 1, 1⟩

/-- `d - timedelta(days=1)` on calendar dates. -/
def Date.prevDay (d : Date) : Date :=
  if 1 < d.day then { d with day := d.day - 1 }
  else if 1 < d.month then ⟨d.year, d.month - 1, daysInMonth d.year (d.month - 1)⟩
  else ⟨d.year - 1, 12, 31⟩

/-- `d - timedelta(days=n)` on calendar dates. -/
def Date.subDays (d : Date) : ℕ → Date
  | 0 => d
  | n + 1 => (d.subDays n).prevDay

/-- One 30-minute usage reading (models `dompower.IntervalUsageData`:
the two fields the coordinator reads). -/
structure IntervalUsageData where
  timestamp : Timestamp
  consumption : ℚ
deriving DecidableEq, Repr

/-- Bill forecast snapshot (models `dompower.BillForecast`: the coordinator
only reads `derived_rate`).  Per the documented external contract, the
derived rate is last-bill charges divided by last-bill usage, absent when the
usage is zero. -/
structure BillForecast where
  charges : ℚ
  usage : ℚ
deriving DecidableEq, Repr

def BillForecast.derived_rate (b : BillForecast) : Option ℚ :=
  if b.usage = 0 then none else some (b.charges / b.usage)

/-- The three values of the `cost_mode` option (const.py:
COST_MODE_FIXED / COST_MODE_TOU / COST_MODE_API). -/
inductive CostMode where
  | fixed
  | tou
  | api
deriving DecidableEq, Repr

/- Default cost constants from const.py. -/

def DEFAULT_FIXED_RATE : ℚ := 12 / 100
def DEFAULT_PEAK_RATE : ℚ := 15 / 100
def DEFAULT_OFF_PEAK_RATE : ℚ := 8 / 100
def DEFAULT_PEAK_START_HOUR : ℕ := 14
def DEFAULT_PEAK_END_HOUR : ℕ := 19
def BACKFILL_DAYS : ℕ := 7

/-- The pricing-relevant entries of `config_entry.options`; `none` models an
absent key, read through `options.get(key, default)`. -/
structure PricingOptions where
  cost_mode : Option CostMode
  fixed_rate : Option ℚ
  peak_rate : Option ℚ
  off_peak_rate : Option ℚ
  peak_start_hour : Option ℕ
  peak_end_hour : Option ℕ
deriving DecidableEq, Repr

def PricingOptions.costModeD (o : PricingOptions) : CostMode :=
  o.cost_mode.getD CostMode.api

def PricingOptions.fixedRateD (o : PricingOptions) : ℚ :=
  o.fixed_rate.getD DEFAULT_FIXED_RATE

def PricingOptions.peakRateD (o : PricingOptions) : ℚ :=
  o.peak_rate.getD DEFAULT_PEAK_RATE

def PricingOptions.offPeakRateD (o : PricingOptions) : ℚ :=
  o.off_peak_rate.getD DEFAULT_OFF_PEAK_RATE

def PricingOptions.peakStartD (o : PricingOptions) : ℕ :=
  o.peak_start_hour.getD DEFAULT_PEAK_START_HOUR

def PricingOptions.peakEndD (o : PricingOptions) : ℕ :=
  o.peak_end_hour.getD DEFAULT_PEAK_END_HOUR

/-- `round(x, 2)`: rounding to 2 decimal places. -/
def round2 (q : ℚ) : ℚ := (⌊q * 100 + 1 / 2⌋ : ℚ) / 100

/-- The time-of-use branch of `_calculate_cost` (coordinator.py lines
324-338): the `cost += …` loop over intervals, then `round(cost, 2)`. -/
def touCost (opts : PricingOptions) (intervals : List IntervalUsageData) : ℚ :=
  round2 (intervals.foldl
    (fun acc i =>
      if opts.peakStartD ≤ i.timestamp.hour ∧ i.timestamp.hour < opts.peakEndD
      then acc + i.consumption * opts.peakRateD
      else acc + i.consumption * opts.offPeakRateD)
    0)

/-- `DominionEnergyCoordinator._calculate_cost` (coordinator.py lines
301-343).  The Python truthiness tests become: `bill_forecast` truthy iff
present; `if rate:` true iff the derived rate is present and non-zero. -/
def calculateCost (opts : PricingOptions) (intervals : List IntervalUsageData)
    (bill_forecast : Option BillForecast) : ℚ :=
  if intervals = [] then 0
  else
    let total_kwh := (intervals.map (fun i => i.consumption)).sum
    match opts.costModeD, bill_forecast with
    | CostMode.api, some b =>
        match b.derived_rate with
        | some rate =>
            if rate = 0 then round2 (total_kwh * opts.fixedRateD)
            else round2 (total_kwh * rate)
        | none => round2 (total_kwh * opts.fixedRateD)
    | CostMode.api, none => round2 (total_kwh * opts.fixedRateD)
    | CostMode.tou, _ => touCost opts intervals
    | CostMode.fixed, _ => round2 (total_kwh * opts.fixedRateD)

/-- The month-boundary computation of `_async_update_data` (coordinator.py
lines 216-225): `yesterday = today - 1 day`, then `month_start` is day 1 of
yesterday's month when the months differ, otherwise day 1 of today's month. -/
def monthStartOf (today : Date) : Date :=
  let yesterday := today.prevDay
  if yesterday.month ≠ today.month then { yesterday with day := 1 }
  else { today with day := 1 }

/-- The errors the coordinator's statistics / forecast paths catch
(`except ApiError`). -/
inductive ApiFailure where
  | apiError
deriving DecidableEq, Repr

/-- One row written by `async_add_external_statistics`
(recorder `StatisticData`): hour start, hourly delta, running sum. -/
structure StatisticData where
  start : Timestamp
  state : ℚ
  sum : ℚ
deriving DecidableEq, Repr

/-- `a.key ≤ b.key` on timestamps, the order `sorted(...)` uses. -/
def tsLE (a b : Timestamp) : Prop := a.key ≤ b.key

instance : DecidableRel tsLE := fun a b =>
  inferInstanceAs (Decidable (a.key ≤ b.key))

instance : IsTotal Timestamp tsLE := ⟨fun a b => le_total a.key b.key⟩

instance : IsTrans Timestamp tsLE := ⟨fun _ _ _ h1 h2 => le_trans h1 h2⟩

/-- The distinct hour buckets of an interval list — the keys of the
`hourly_data` dict — in ascending order (`sorted(hourly_data.keys())`). -/
def hourKeys (intervals : List IntervalUsageData) : List Timestamp :=
  List.insertionSort tsLE
    ((intervals.map (fun i => i.timestamp.hourStart)).dedup)

/-- The value accumulated in `hourly_data[h]`: the total consumption of the
intervals whose truncated timestamp is `h`. -/
def hourlyTotal (intervals : List IntervalUsageData) (h : Timestamp) : ℚ :=
  ((intervals.filter (fun i => decide (i.timestamp.hourStart = h))).map
    (fun i => i.consumption)).sum

/-- The `for hour_start in sorted(hourly_data.keys())` loop: one
`StatisticData` per bucket, threading the running sum. -/
def statsFromKeys (intervals : List IntervalUsageData) (s0 : ℚ) :
    List Timestamp → List StatisticData
  | [] => []
  | h :: rest =>
      let c := hourlyTotal intervals h
      ⟨h, c, s0 + c⟩ :: statsFromKeys intervals (s0 + c) rest

/-- Bucket an interval list by hour and build the statistics rows, the
running sum starting at `s0` (shared body of `_backfill_statistics` and
`_update_statistics`). -/
def buildStats (intervals : List IntervalUsageData) (s0 : ℚ) :
    List StatisticData :=
  statsFromKeys intervals s0 (hourKeys intervals)

/-- `DominionEnergyCoordinator._backfill_statistics` (coordinator.py lines
377-447), as the list of rows it hands to `async_add_external_statistics`
(the store was empty, so this is the resulting store).  `fetch` models
`async_get_interval_usage`; a raised `ApiError`, an empty result, and an
empty processed batch each leave the store empty. -/
def backfillStatistics
    (fetch : Date → Date → Except ApiFailure (List IntervalUsageData))
    (today : Date) : List StatisticData :=
  let end_date := today.prevDay
  let start_date := today.subDays BACKFILL_DAYS
  match fetch start_date end_date with
  | Except.error _ => []
  | Except.ok intervals =>
      if intervals = [] then []
      else
        let consumption_statistics := buildStats intervals 0
        if consumption_statistics = [] then [] else consumption_statistics

/-- `DominionEnergyCoordinator._update_statistics` (coordinator.py lines
449-550) on a store sorted ascending by timestamp, whose last element models
the row `get_last_statistics` returns.  Result: the store after the call
(rows appended by `async_add_external_statistics`), and the fetch request
made (`none` when the date guard returned before fetching). -/
def updateStatistics
    (fetch : Date → Date → Except ApiFailure (List IntervalUsageData))
    (store : List StatisticData) (data_date : Date) :
    List StatisticData × Option (Date × Date) :=
  match store.getLast? with
  | none => (store, none)
  | some last_stat =>
      let last_stat_date := last_stat.start.toDate
      let current_sum := last_stat.sum
      if data_date.key ≤ last_stat_date.key then (store, none)
      else
        let start_date := last_stat_date.nextDay
        match fetch start_date data_date with
        | Except.error _ => (store, some (start_date, data_date))
        | Except.ok intervals =>
            if intervals = [] then (store, some (start_date, data_date))
            else
              let consumption_statistics := buildStats intervals current_sum
              if consumption_statistics = []
              then (store, some (start_date, data_date))
              else (store ++ consumption_statistics,
                    some (start_date, data_date))

/-- `DominionEnergyCoordinator._insert_statistics` (coordinator.py lines
345-375): backfill when no statistics exist, incremental update otherwise. -/
def insertStatistics
    (fetch : Date → Date → Except ApiFailure (List IntervalUsageData))
    (store : List StatisticData) (today data_date : Date) :
    List StatisticData :=
  if store = [] then backfillStatistics fetch today
  else (updateStatistics fetch store data_date).1

/-- A fetch that honours the requested date range: every returned interval's
calendar date lies in `[a, b]` (the documented contract of
`async_get_interval_usage(start_date, end_date)`). -/
def FetchInRange
    (fetch : Date → Date → Except ApiFailure (List IntervalUsageData)) :
    Prop :=
  ∀ a b ivs, fetch a b = Except.ok ivs →
    ∀ i ∈ ivs, a.key ≤ i.timestamp.toDate.key ∧ i.timestamp.toDate.key ≤ b.key

/-- A fetch all of whose returned interval consumptions are non-negative. -/
def FetchNonneg
    (fetch : Date → Date → Except ApiFailure (List IntervalUsageData)) :
    Prop :=
  ∀ a b ivs, fetch a b = Except.ok ivs → ∀ i ∈ ivs, 0 ≤ i.consumption

/-- The fetch of a fixed upstream dataset: `fetchOf data a b` returns exactly
the readings of `data` dated within `[a, b]` ("the same new data" across
repeated reconciliations). -/
def fetchOf (data : List IntervalUsageData) (a b : Date) :
    Except ApiFailure (List IntervalUsageData) :=
  Except.ok (data.filter (fun i =>
    decide (a.key ≤ i.timestamp.toDate.key) &&
    decide (i.timestamp.toDate.key ≤ b.key)))

/-- The stores reachable by an initial backfill followed by any sequence of
incremental updates, each cycle's fetch honouring the external client's
contract (results within the requested range) with non-negative
consumptions. -/
inductive Reachable : List StatisticData → Prop
  | backfill
      (fetch : Date → Date → Except ApiFailure (List IntervalUsageData))
      (today : Date) (hn : FetchNonneg fetch) :
      Reachable (backfillStatistics fetch today)
  | update
      (store : List StatisticData)
      (fetch : Date → Date → Except ApiFailure (List IntervalUsageData))
      (data_date : Date) (hs : Reachable store)
      (hr : FetchInRange fetch) (hn : FetchNonneg fetch) :
      Reachable (updateStatistics fetch store data_date).1

/-- `sumsOk s0 rows`: each row's `sum` continues the running sum from the
previous row (starting at `s0`). -/
def sumsOk : ℚ → List StatisticData → Prop
  | _, [] => True
  | s0, p :: rest => p.sum = s0 + p.state ∧ sumsOk p.sum rest

/-- The running sum after a list of rows (`s0` when the list is empty). -/
def lastSum (s0 : ℚ) : List StatisticData → ℚ
  | [] => s0
  | p :: rest => lastSum p.sum rest

/-- The record `_async_update_data` returns (coordinator.py `DominionEnergyData`).
The date fields are always set on the success path, so they are not optional
here. -/
structure DominionEnergyData where
  intervals : List IntervalUsageData
  latest_interval : Option IntervalUsageData
  daily_total : ℚ
  monthly_total : ℚ
  daily_cost : ℚ
  monthly_cost : ℚ
  bill_forecast : Option BillForecast
  data_date : Date
  month_start_date : Date
  month_end_date : Date
deriving DecidableEq, Repr

/-- The success-path dataflow of `_async_update_data` (coordinator.py lines
216-282), starting after the client is set up.  The four fallible API calls
are passed in as their outcomes: the daily interval fetch, the month-to-date
interval fetch (consulted only when `month_start < yesterday`), the bill
forecast fetch (whose failure is downgraded to `none`, lines 253-260), and
the statistics-path fetch handed to `_insert_statistics` (line 269).
Result: the `DominionEnergyData` returned and the statistics store after the
cycle; `.error` when a daily/monthly fetch failure propagates out of the
`try` block. -/
def refreshCycle (opts : PricingOptions) (today : Date)
    (dailyFetch : Except ApiFailure (List IntervalUsageData))
    (monthlyFetch : Except ApiFailure (List IntervalUsageData))
    (forecastFetch : Except ApiFailure BillForecast)
    (statsFetch : Date → Date → Except ApiFailure (List IntervalUsageData))
    (store : List StatisticData) :
    Except ApiFailure (DominionEnergyData × List StatisticData) :=
  let yesterday := today.prevDay
  let month_start := monthStartOf today
  match dailyFetch with
  | Except.error err => Except.error err
  | Except.ok intervals =>
      let daily_total := (intervals.map (fun i => i.consumption)).sum
      match if month_start.key < yesterday.key then monthlyFetch
            else Except.ok intervals with
      | Except.error err => Except.error err
      | Except.ok monthly_intervals =>
          let monthly_total :=
            (monthly_intervals.map (fun i => i.consumption)).sum
          let bill_forecast := forecastFetch.toOption
          let daily_cost := calculateCost opts intervals bill_forecast
          let monthly_cost := calculateCost opts monthly_intervals bill_forecast
          let latest := intervals.getLast?
          let store2 := insertStatistics statsFetch store today yesterday
          Except.ok ({ intervals := intervals
                       latest_interval := latest
                       daily_total := daily_total
                       monthly_total := monthly_total
                       daily_cost := daily_cost
                       monthly_cost := monthly_cost
                       bill_forecast := bill_forecast
                       data_date := yesterday
                       month_start_date := month_start
                       month_end_date := yesterday }, store2)

/-- Outcome of one primary-fetch attempt inside `_async_update_data`'s `try`
block, classified by the exception handlers of lines 284-299. -/
inductive FetchOutcome (α : Type) where
  | ok (a : α)
  | tokenExpired
  | invalidAuth
  | cannotConnect
  | apiError
deriving DecidableEq, Repr

/-- What a refresh cycle surfaces to the framework: a successful result, a
`ConfigEntryAuthFailed`, or an `UpdateFailed`. -/
inductive UpdateOutcome (α : Type) where
  | success (a : α)
  | authFailed
  | updateFailed
deriving DecidableEq, Repr

/-- Outcome of one `GigyaAuthenticator.async_login` attempt inside
`_async_attempt_reauth` (coordinator.py lines 153-200). -/
inductive ReauthOutcome where
  | success
  | tfaRequired
  | invalidCredentials
  | cannotConnect
  | unexpected
deriving DecidableEq, Repr

/-- `DominionEnergyCoordinator._async_attempt_reauth` (coordinator.py lines
137-200): `false` when no username/password pair is stored; with stored
credentials, `true` exactly when the login attempt succeeds (TFA-required,
invalid-credentials, connection and unexpected errors all return `false`). -/
def attemptReauth (creds : Option (String × String)) (o : ReauthOutcome) :
    Bool :=
  match creds, o with
  | none, _ => false
  | some _, ReauthOutcome.success => true
  | some _, _ => false

/-- The error-dispatch skeleton of `_async_update_data` (coordinator.py lines
284-299) over a trace of attempts.  Each trace entry is the outcome of the
n-th primary fetch paired with whether `_async_attempt_reauth` would succeed
at that point; on `TokenExpiredError` a successful reauth re-enters
`_async_update_data` (line 288), consuming the next trace entry.  `none`
means the trace ended before the recursion did. -/
def runUpdate {α : Type} :
    List (FetchOutcome α × Bool) → Option (UpdateOutcome α)
  | [] => none
  | (o, reauthOk) :: rest =>
      match o with
      | FetchOutcome.ok a => some (UpdateOutcome.success a)
      | FetchOutcome.tokenExpired =>
          if reauthOk then runUpdate rest else some UpdateOutcome.authFailed
      | FetchOutcome.invalidAuth => some UpdateOutcome.authFailed
      | FetchOutcome.cannotConnect => some UpdateOutcome.updateFailed
      | FetchOutcome.apiError => some UpdateOutcome.updateFailed

/- ### Order lemmas on dates and timestamps -/

theorem Date.key_lt_iff (a b : Date) :
    a.key < b.key ↔
      a.year < b.year ∨ a.year = b.year ∧
        (a.month < b.month ∨ a.month = b.month ∧ a.day < b.day) := by
  simp [Date.key, Prod.Lex.lt_iff]

theorem Date.key_le_iff (a b : Date) :
    a.key ≤ b.key ↔
      a.year < b.year ∨ a.year = b.year ∧
        (a.month < b.month ∨ a.month = b.month ∧ a.day ≤ b.day) := by
  simp [Date.key, Prod.Lex.le_iff, Prod.Lex.lt_iff]

theorem Timestamp.key_lt_iff_date (a b : Timestamp) :
    a.key < b.key ↔
      a.toDate.key < b.toDate.key ∨
        a.toDate.key = b.toDate.key ∧ a.timeKey < b.timeKey := by
  simp [Timestamp.key, Prod.Lex.lt_iff]

theorem Timestamp.key_le_iff_date (a b : Timestamp) :
    a.key ≤ b.key ↔
      a.toDate.key < b.toDate.key ∨
        a.toDate.key = b.toDate.key ∧ a.timeKey ≤ b.timeKey := by
  simp [Timestamp.key, Prod.Lex.le_iff]

/-- Comparison of timestamps implies comparison of their calendar dates. -/
theorem Timestamp.toDate_key_le_of_key_le {a b : Timestamp}
    (h : a.key ≤ b.key) : a.toDate.key ≤ b.toDate.key := by
  rcases (Timestamp.key_le_iff_date a b).mp h with h1 | ⟨h1, _⟩
  · exact le_of_lt h1
  · exact le_of_eq h1

/-- A strictly later calendar date gives a strictly later timestamp. -/
theorem Timestamp.key_lt_of_toDate_key_lt {a b : Timestamp}
    (h : a.toDate.key < b.toDate.key) : a.key < b.key :=
  (Timestamp.key_lt_iff_date a b).mpr (Or.inl h)

theorem Timestamp.key_inj {a b : Timestamp} (h : a.key = b.key) : a = b := by
  simp only [Timestamp.key, toLex_inj, Prod.mk.injEq, Date.key,
    Timestamp.timeKey, Timestamp.toDate, Date.mk.injEq] at h
  obtain ⟨⟨h1, h2, h3⟩, h4, h5, h6, h7⟩ := h
  cases a; cases b; simp_all

theorem Timestamp.hourStart_toDate (t : Timestamp) :
    t.hourStart.toDate = t.toDate := rfl

/-- `timedelta(days=1)` moves a date strictly forward. -/
theorem Date.key_lt_nextDay (d : Date) : d.key < d.nextDay.key := by
  unfold Date.nextDay
  split
  · exact (Date.key_lt_iff _ _).mpr (Or.inr ⟨rfl, Or.inr ⟨rfl, Nat.lt_succ_self _⟩⟩)
  · split
    · exact (Date.key_lt_iff _ _).mpr (Or.inr ⟨rfl, Or.inl (Nat.lt_succ_self _)⟩)
    · exact (Date.key_lt_iff _ _).mpr (Or.inl (Nat.lt_succ_self _))

/- ### Generic list lemmas -/

/-- In a list pairwise-increasing under `g`, every element is bounded by the
last one. -/
theorem pairwise_le_getLast {α K : Type*} [LinearOrder K] (g : α → K)
    (l : List α) (hp : l.Pairwise (fun a b => g a < g b)) :
    ∀ y, l.getLast? = some y → ∀ x ∈ l, g x ≤ g y := by
  induction l with
  | nil => intro y hy; simp at hy
  | cons a l ih =>
    intro y hy x hx
    cases l with
    | nil =>
      simp at hy hx
      subst hy; subst hx; exact le_refl _
    | cons b m =>
      rw [List.getLast?_cons_cons] at hy
      rcases List.mem_cons.mp hx with rfl | hx2
      · have hy_mem : y ∈ b :: m := List.mem_of_mem_getLast? (by rw [hy]; rfl)
        exact le_of_lt ((List.pairwise_cons.mp hp).1 y hy_mem)
      · exact ih (List.pairwise_cons.mp hp).2 y hy x hx2

/- ### Lemmas on the hourly bucketing and running sums -/

theorem statsFromKeys_map_start (ivs : List IntervalUsageData) :
    ∀ (keys : List Timestamp) (s0 : ℚ),
      (statsFromKeys ivs s0 keys).map (fun p => p.start) = keys := by
  intro keys
  induction keys with
  | nil => intro s0; rfl
  | cons h rest ih => intro s0; simp [statsFromKeys, ih]

theorem sumsOk_statsFromKeys (ivs : List IntervalUsageData) :
    ∀ (keys : List Timestamp) (s0 : ℚ),
      sumsOk s0 (statsFromKeys ivs s0 keys) := by
  intro keys
  induction keys with
  | nil => intro s0; trivial
  | cons h rest ih => intro s0; exact ⟨rfl, ih (s0 + hourlyTotal ivs h)⟩

theorem mem_statsFromKeys (ivs : List IntervalUsageData) :
    ∀ (keys : List Timestamp) (s0 : ℚ) (p : StatisticData),
      p ∈ statsFromKeys ivs s0 keys →
      p.start ∈ keys ∧ p.state = hourlyTotal ivs p.start := by
  intro keys
  induction keys with
  | nil => intro s0 p hp; simp [statsFromKeys] at hp
  | cons h rest ih =>
    intro s0 p hp
    rcases List.mem_cons.mp hp with rfl | hmem
    · exact ⟨List.mem_cons_self _ _, rfl⟩
    · obtain ⟨h1, h2⟩ := ih _ p hmem
      exact ⟨List.mem_cons_of_mem _ h1, h2⟩

theorem hourlyTotal_nonneg {ivs : List IntervalUsageData}
    (hc : ∀ i ∈ ivs, 0 ≤ i.consumption) (h : Timestamp) :
    0 ≤ hourlyTotal ivs h := by
  apply List.sum_nonneg
  intro x hx
  simp only [List.mem_map, List.mem_filter] at hx
  obtain ⟨i, ⟨hi, _⟩, rfl⟩ := hx
  exact hc i hi

theorem mem_hourKeys {ivs : List IntervalUsageData} {k : Timestamp} :
    k ∈ hourKeys ivs ↔ ∃ i ∈ ivs, k = i.timestamp.hourStart := by
  rw [hourKeys, (List.perm_insertionSort tsLE _).mem_iff, List.mem_dedup]
  simp only [List.mem_map]
  constructor
  · rintro ⟨i, hi, rfl⟩; exact ⟨i, hi, rfl⟩
  · rintro ⟨i, hi, rfl⟩; exact ⟨i, hi, rfl⟩

theorem hourKeys_pairwise (ivs : List IntervalUsageData) :
    (hourKeys ivs).Pairwise (fun a b => a.key < b.key) := by
  have hs : List.Sorted tsLE (hourKeys ivs) :=
    List.sorted_insertionSort tsLE _
  have hnd : (hourKeys ivs).Nodup :=
    (List.perm_insertionSort tsLE _).nodup_iff.mpr (List.nodup_dedup _)
  exact (hs.and hnd).imp
    (fun hab => lt_of_le_of_ne hab.1 (fun he => hab.2 (Timestamp.key_inj he)))

theorem hourKeys_ne_nil {ivs : List IntervalUsageData} (h : ivs ≠ []) :
    hourKeys ivs ≠ [] := by
  intro hk
  cases ivs with
  | nil => exact h rfl
  | cons i rest =>
    have : i.timestamp.hourStart ∈ hourKeys (i :: rest) :=
      mem_hourKeys.mpr ⟨i, List.mem_cons_self _ _, rfl⟩
    rw [hk] at this
    exact List.not_mem_nil _ this

theorem buildStats_map_start (ivs : List IntervalUsageData) (s0 : ℚ) :
    (buildStats ivs s0).map (fun p => p.start) = hourKeys ivs :=
  statsFromKeys_map_start ivs (hourKeys ivs) s0

theorem buildStats_pairwise (ivs : List IntervalUsageData) (s0 : ℚ) :
    (buildStats ivs s0).Pairwise (fun p q => p.start.key < q.start.key) := by
  have := hourKeys_pairwise ivs
  rw [← buildStats_map_start ivs s0, List.pairwise_map] at this
  exact this

theorem sumsOk_buildStats (ivs : List IntervalUsageData) (s0 : ℚ) :
    sumsOk s0 (buildStats ivs s0) :=
  sumsOk_statsFromKeys ivs (hourKeys ivs) s0

theorem buildStats_state_nonneg {ivs : List IntervalUsageData}
    (hc : ∀ i ∈ ivs, 0 ≤ i.consumption) (s0 : ℚ) :
    ∀ p ∈ buildStats ivs s0, 0 ≤ p.state := by
  intro p hp
  obtain ⟨_, h2⟩ := mem_statsFromKeys ivs (hourKeys ivs) s0 p hp
  rw [h2]
  exact hourlyTotal_nonneg hc p.start

theorem mem_buildStats_start {ivs : List IntervalUsageData} {s0 : ℚ}
    {p : StatisticData} (hp : p ∈ buildStats ivs s0) :
    ∃ i ∈ ivs, p.start = i.timestamp.hourStart :=
  mem_hourKeys.mp (mem_statsFromKeys ivs (hourKeys ivs) s0 p hp).1

theorem buildStats_ne_nil {ivs : List IntervalUsageData} (h : ivs ≠ [])
    (s0 : ℚ) : buildStats ivs s0 ≠ [] := by
  intro hb
  have hmap := buildStats_map_start ivs s0
  rw [hb] at hmap
  exact hourKeys_ne_nil h hmap.symm

theorem sumsOk_append {xs : List StatisticData} :
    ∀ {a : ℚ} {ys : List StatisticData},
      sumsOk a xs → sumsOk (lastSum a xs) ys → sumsOk a (xs ++ ys) := by
  induction xs with
  | nil => intro a ys _ hy; exact hy
  | cons x rest ih =>
    intro a ys hx hy
    exact ⟨hx.1, ih hx.2 hy⟩

theorem lastSum_eq_of_getLast? {xs : List StatisticData} :
    ∀ {a : ℚ} {p : StatisticData}, xs.getLast? = some p → lastSum a xs = p.sum := by
  induction xs with
  | nil => intro a p hp; simp at hp
  | cons x rest ih =>
    intro a p hp
    cases rest with
    | nil => simp at hp; subst hp; rfl
    | cons y m =>
      rw [List.getLast?_cons_cons] at hp
      show lastSum x.sum (y :: m) = p.sum
      exact ih hp

theorem sumsOk_pairwise_le {l : List StatisticData} :
    ∀ {a : ℚ}, sumsOk a l → (∀ p ∈ l, 0 ≤ p.state) →
      l.Pairwise (fun p q => p.sum ≤ q.sum) ∧ ∀ p ∈ l, a ≤ p.sum := by
  induction l with
  | nil => intro a _ _; exact ⟨List.Pairwise.nil, by simp⟩
  | cons x rest ih =>
    intro a hs hnn
    obtain ⟨hx, hrest⟩ := hs
    have hxs : 0 ≤ x.state := hnn x (List.mem_cons_self _ _)
    obtain ⟨ihp, ihle⟩ := ih hrest (fun p hp => hnn p (List.mem_cons_of_mem _ hp))
    have hax : a ≤ x.sum := by rw [hx]; linarith
    constructor
    · exact List.pairwise_cons.mpr ⟨fun q hq => ihle q hq, ihp⟩
    · intro p hp
      rcases List.mem_cons.mp hp with rfl | hmem
      · exact hax
      · exact le_trans hax (ihle p hmem)

theorem sumsOk_filter_sum {l : List StatisticData} :
    ∀ {a : ℚ}, sumsOk a l →
      l.Pairwise (fun p q => p.start.key < q.start.key) →
      ∀ p ∈ l, p.sum = a +
        ((l.filter (fun q => decide (q.start.key ≤ p.start.key))).map
          (fun q => q.state)).sum := by
  induction l with
  | nil => simp
  | cons x rest ih =>
    intro a hs hp p hpmem
    obtain ⟨hx, hrest⟩ := hs
    have hp1 := (List.pairwise_cons.mp hp).1
    have hp2 := (List.pairwise_cons.mp hp).2
    rcases List.mem_cons.mp hpmem with rfl | hmem
    · have hfr : rest.filter (fun q => decide (q.start.key ≤ p.start.key)) = [] := by
        rw [List.filter_eq_nil_iff]
        intro q hq
        simp only [decide_eq_true_eq]
        exact not_le.mpr (hp1 q hq)
      simp [List.filter_cons, hfr, hx]
    · have hxp : x.start.key < p.start.key := hp1 p hmem
      have hd : decide (x.start.key ≤ p.start.key) = true := by
        simp [le_of_lt hxp]
      have ihp := ih hrest hp2 p hmem
      rw [List.filter_cons, hd]
      simp only [if_true, List.map_cons, List.sum_cons]
      rw [ihp, hx]
      ring

/- ### Branch lemmas for `updateStatistics` -/

theorem updateStatistics_noop
    {f : Date → Date → Except ApiFailure (List IntervalUsageData)}
    {store : List StatisticData} {d : Date} {lastP : StatisticData}
    (hl : store.getLast? = some lastP)
    (hd : d.key ≤ lastP.start.toDate.key) :
    updateStatistics f store d = (store, none) := by
  simp [updateStatistics, hl, hd]

theorem updateStatistics_fetch_error
    {f : Date → Date → Except ApiFailure (List IntervalUsageData)}
    {store : List StatisticData} {d : Date} {lastP : StatisticData}
    {e : ApiFailure} (hl : store.getLast? = some lastP)
    (hd : ¬ d.key ≤ lastP.start.toDate.key)
    (hf : f lastP.start.toDate.nextDay d = Except.error e) :
    updateStatistics f store d =
      (store, some (lastP.start.toDate.nextDay, d)) := by
  simp [updateStatistics, hl, hd, hf]

theorem updateStatistics_fetch_empty
    {f : Date → Date → Except ApiFailure (List IntervalUsageData)}
    {store : List StatisticData} {d : Date} {lastP : StatisticData}
    (hl : store.getLast? = some lastP)
    (hd : ¬ d.key ≤ lastP.start.toDate.key)
    (hf : f lastP.start.toDate.nextDay d = Except.ok []) :
    updateStatistics f store d =
      (store, some (lastP.start.toDate.nextDay, d)) := by
  simp [updateStatistics, hl, hd, hf]

theorem updateStatistics_append
    {f : Date → Date → Except ApiFailure (List IntervalUsageData)}
    {store : List StatisticData} {d : Date} {lastP : StatisticData}
    {ivs : List IntervalUsageData} (hl : store.getLast? = some lastP)
    (hd : ¬ d.key ≤ lastP.start.toDate.key)
    (hf : f lastP.start.toDate.nextDay d = Except.ok ivs) (hivs : ivs ≠ []) :
    updateStatistics f store d =
      (store ++ buildStats ivs lastP.sum,
        some (lastP.start.toDate.nextDay, d)) := by
  simp [updateStatistics, hl, hd, hf, hivs, buildStats_ne_nil hivs]

/-- Every run of `updateStatistics` either leaves the store alone or appends
the bucketed batch of a non-empty in-gap fetch. -/
theorem updateStatistics_cases
    (f : Date → Date → Except ApiFailure (List IntervalUsageData))
    (store : List StatisticData) (d : Date) :
    (updateStatistics f store d).1 = store ∨
    ∃ lastP ivs, store.getLast? = some lastP ∧
      lastP.start.toDate.key < d.key ∧
      f lastP.start.toDate.nextDay d = Except.ok ivs ∧ ivs ≠ [] ∧
      (updateStatistics f store d).1 = store ++ buildStats ivs lastP.sum := by
  cases hl : store.getLast? with
  | none => left; simp [updateStatistics, hl]
  | some lastP =>
    by_cases hd : d.key ≤ lastP.start.toDate.key
    · left; rw [updateStatistics_noop hl hd]
    · cases hf : f lastP.start.toDate.nextDay d with
      | error e => left; rw [updateStatistics_fetch_error hl hd hf]
      | ok ivs =>
        by_cases hivs : ivs = []
        · left; subst hivs; rw [updateStatistics_fetch_empty hl hd hf]
        · right
          exact ⟨lastP, ivs, rfl, not_le.mp hd, hf, hivs,
            by rw [updateStatistics_append hl hd hf hivs]⟩

theorem backfillStatistics_eq
    (f : Date → Date → Except ApiFailure (List IntervalUsageData))
    (today : Date) :
    backfillStatistics f today =
      match f (today.subDays BACKFILL_DAYS) today.prevDay with
      | Except.error _ => []
      | Except.ok intervals =>
          if intervals = [] then []
          else if buildStats intervals 0 = [] then []
          else buildStats intervals 0 := rfl

/- ### The store invariant and its preservation -/

/-- Invariant of the persisted statistics store: rows strictly increasing in
timestamp, each row's sum continuing the running sum from the previous row
(from 0 at inception), and non-negative hourly deltas. -/
def StoreInv (s : List StatisticData) : Prop :=
  s.Pairwise (fun p q => p.start.key < q.start.key) ∧ sumsOk 0 s ∧
  ∀ p ∈ s, 0 ≤ p.state

theorem storeInv_nil : StoreInv [] := ⟨List.Pairwise.nil, trivial, by simp⟩

theorem buildStats_storeInv {ivs : List IntervalUsageData}
    (hc : ∀ i ∈ ivs, 0 ≤ i.consumption) : StoreInv (buildStats ivs 0) :=
  ⟨buildStats_pairwise ivs 0, sumsOk_buildStats ivs 0,
    buildStats_state_nonneg hc 0⟩

theorem backfillStatistics_storeInv
    (f : Date → Date → Except ApiFailure (List IntervalUsageData))
    (today : Date) (hn : FetchNonneg f) :
    StoreInv (backfillStatistics f today) := by
  rw [backfillStatistics_eq]
  cases hf : f (today.subDays BACKFILL_DAYS) today.prevDay with
  | error e => exact storeInv_nil
  | ok ivs =>
    by_cases hivs : ivs = []
    · simp only [if_pos hivs]; exact storeInv_nil
    · simp only [if_neg hivs]
      by_cases hb : buildStats ivs 0 = []
      · simp only [if_pos hb]; exact storeInv_nil
      · simp only [if_neg hb]
        exact buildStats_storeInv (hn _ _ _ hf)

theorem updateStatistics_storeInv
    {f : Date → Date → Except ApiFailure (List IntervalUsageData)}
    {store : List StatisticData} {d : Date} (hInv : StoreInv store)
    (hr : FetchInRange f) (hn : FetchNonneg f) :
    StoreInv (updateStatistics f store d).1 := by
  rcases updateStatistics_cases f store d with heq |
    ⟨lastP, ivs, hl, hd, hf, hivs, heq⟩
  · rw [heq]; exact hInv
  · rw [heq]
    obtain ⟨hpw, hsums, hnn⟩ := hInv
    have hnn2 := hn _ _ _ hf
    have hrange := hr _ _ _ hf
    refine ⟨?_, ?_, ?_⟩
    · rw [List.pairwise_append]
      refine ⟨hpw, buildStats_pairwise ivs lastP.sum, ?_⟩
      intro x hx q hq
      have hxle : x.start.key ≤ lastP.start.key :=
        pairwise_le_getLast (fun p => p.start.key) store hpw lastP hl x hx
      have hxd : x.start.toDate.key ≤ lastP.start.toDate.key :=
        Timestamp.toDate_key_le_of_key_le hxle
      obtain ⟨i, hi, hqs⟩ := mem_buildStats_start hq
      have hnext : lastP.start.toDate.key < i.timestamp.toDate.key :=
        lt_of_lt_of_le (Date.key_lt_nextDay _) (hrange i hi).1
      have hqd : lastP.start.toDate.key < q.start.toDate.key := by
        rw [hqs, Timestamp.hourStart_toDate]; exact hnext
      exact Timestamp.key_lt_of_toDate_key_lt (lt_of_le_of_lt hxd hqd)
    · apply sumsOk_append hsums
      rw [lastSum_eq_of_getLast? hl]
      exact sumsOk_buildStats ivs lastP.sum
    · intro p hp
      rcases List.mem_append.mp hp with h1 | h2
      · exact hnn p h1
      · exact buildStats_state_nonneg hnn2 _ p h2

theorem reachable_storeInv {s : List StatisticData} (h : Reachable s) :
    StoreInv s := by
  induction h with
  | backfill f today hn => exact backfillStatistics_storeInv f today hn
  | update store f d hs hr hn ih => exact updateStatistics_storeInv ih hr hn

theorem fetchOf_inRange (data : List IntervalUsageData) :
    FetchInRange (fetchOf data) := by
  intro a b ivs hf i hi
  simp only [fetchOf, Except.ok.injEq] at hf
  subst hf
  obtain ⟨-, hcond⟩ := List.mem_filter.mp hi
  simp only [Bool.and_eq_true, decide_eq_true_eq] at hcond
  exact hcond

/-- C1: after an initial backfill and any sequence of incremental updates
with non-negative interval consumptions (the fetches honouring the client's
range contract), the persisted rows are strictly increasing in timestamp
with non-decreasing cumulative sums, and each row's sum equals the total of
all persisted hourly deltas with timestamp ≤ its own — each update having
continued the running sum from the last persisted value. -/
theorem dominion_c1 (store : List StatisticData) (h : Reachable store) :
    store.Pairwise (fun p q => p.start.key < q.start.key ∧ p.sum ≤ q.sum) ∧
    ∀ p ∈ store, p.sum =
      ((store.filter (fun q => decide (q.start.key ≤ p.start.key))).map
        (fun q => q.state)).sum := by
  obtain ⟨hpw, hsums, hnn⟩ := reachable_storeInv h
  have hm := (sumsOk_pairwise_le hsums hnn).1
  refine ⟨hpw.and hm, ?_⟩
  intro p hp
  rw [sumsOk_filter_sum hsums hpw p hp, zero_add]

/-- C10: whenever the incremental update can run (store non-empty, last
covered date < data date) against a fetch honouring the range contract, the
fetched gap starts at the day after the last persisted point's local date,
and every appended point lies on a calendar date strictly after the last
covered date — later hours of the last covered day are never fetched or
appended. -/
theorem dominion_c10
    (f : Date → Date → Except ApiFailure (List IntervalUsageData))
    (store : List StatisticData) (d : Date) (lastP : StatisticData)
    (hl : store.getLast? = some lastP) (hr : FetchInRange f)
    (hd : lastP.start.toDate.key < d.key) :
    (updateStatistics f store d).2 = some (lastP.start.toDate.nextDay, d) ∧
    ∃ new, (updateStatistics f store d).1 = store ++ new ∧
      ∀ p ∈ new, lastP.start.toDate.key < p.start.toDate.key := by
  have hd' : ¬ d.key ≤ lastP.start.toDate.key := not_le.mpr hd
  cases hf : f lastP.start.toDate.nextDay d with
  | error e =>
    rw [updateStatistics_fetch_error hl hd' hf]
    exact ⟨rfl, [], by simp, by simp⟩
  | ok ivs =>
    by_cases hivs : ivs = []
    · subst hivs
      rw [updateStatistics_fetch_empty hl hd' hf]
      exact ⟨rfl, [], by simp, by simp⟩
    · rw [updateStatistics_append hl hd' hf hivs]
      refine ⟨rfl, buildStats ivs lastP.sum, rfl, ?_⟩
      intro p hp
      obtain ⟨i, hi, hps⟩ := mem_buildStats_start hp
      have hin := (hr _ _ _ hf i hi).1
      rw [hps, Timestamp.hourStart_toDate]
      exact lt_of_lt_of_le (Date.key_lt_nextDay _) hin

/-- C2: when the last persisted point's local date is ≥ the new data date the
incremental update performs no fetch and appends nothing; and re-running the
reconciliation against the same upstream data (`fetchOf data`) leaves the
store unchanged — no duplicate points. -/
theorem dominion_c2 :
    (∀ (f : Date → Date → Except ApiFailure (List IntervalUsageData))
       (store : List StatisticData) (d : Date) (lastP : StatisticData),
       store.getLast? = some lastP → d.key ≤ lastP.start.toDate.key →
       updateStatistics f store d = (store, none)) ∧
    (∀ (data : List IntervalUsageData) (store : List StatisticData) (d : Date),
       (updateStatistics (fetchOf data)
         ((updateStatistics (fetchOf data) store d).1) d).1 =
       (updateStatistics (fetchOf data) store d).1) := by
  constructor
  · intro f store d lastP hl hd
    exact updateStatistics_noop hl hd
  · intro data store d
    cases hl : store.getLast? with
    | none =>
      have h1 : updateStatistics (fetchOf data) store d = (store, none) := by
        simp [updateStatistics, hl]
      simp [h1]
    | some lastP =>
      by_cases hd : d.key ≤ lastP.start.toDate.key
      · have h1 := updateStatistics_noop (f := fetchOf data) hl hd
        simp [h1]
      · have hfet : fetchOf data lastP.start.toDate.nextDay d =
            Except.ok (data.filter (fun i =>
              decide (lastP.start.toDate.nextDay.key ≤ i.timestamp.toDate.key) &&
              decide (i.timestamp.toDate.key ≤ d.key))) := rfl
        by_cases hivs : data.filter (fun i =>
            decide (lastP.start.toDate.nextDay.key ≤ i.timestamp.toDate.key) &&
            decide (i.timestamp.toDate.key ≤ d.key)) = []
        · have hfe : fetchOf data lastP.start.toDate.nextDay d =
              Except.ok [] := by rw [hfet, hivs]
          have h1 := updateStatistics_fetch_empty hl hd hfe
          simp [h1]
        · have h1 := updateStatistics_append hl hd hfet hivs
          rw [h1]
          show (updateStatistics (fetchOf data)
            (store ++ buildStats (data.filter (fun i =>
              decide (lastP.start.toDate.nextDay.key ≤ i.timestamp.toDate.key) &&
              decide (i.timestamp.toDate.key ≤ d.key))) lastP.sum) d).1 =
            store ++ buildStats (data.filter (fun i =>
              decide (lastP.start.toDate.nextDay.key ≤ i.timestamp.toDate.key) &&
              decide (i.timestamp.toDate.key ≤ d.key))) lastP.sum
          have hsne : buildStats (data.filter (fun i =>
              decide (lastP.start.toDate.nextDay.key ≤ i.timestamp.toDate.key) &&
              decide (i.timestamp.toDate.key ≤ d.key))) lastP.sum ≠ [] :=
            buildStats_ne_nil hivs _
          obtain ⟨q, hq⟩ : ∃ q, (buildStats (data.filter (fun i =>
              decide (lastP.start.toDate.nextDay.key ≤ i.timestamp.toDate.key) &&
              decide (i.timestamp.toDate.key ≤ d.key))) lastP.sum).getLast? =
              some q := by
            cases hsg : (buildStats (data.filter (fun i =>
                decide (lastP.start.toDate.nextDay.key ≤ i.timestamp.toDate.key) &&
                decide (i.timestamp.toDate.key ≤ d.key))) lastP.sum).getLast? with
            | none => exact absurd (List.getLast?_eq_none_iff.mp hsg) hsne
            | some q => exact ⟨q, rfl⟩
          have hl2 : (store ++ buildStats (data.filter (fun i =>
              decide (lastP.start.toDate.nextDay.key ≤ i.timestamp.toDate.key) &&
              decide (i.timestamp.toDate.key ≤ d.key))) lastP.sum).getLast? =
              some q := by
            rw [List.getLast?_append, hq]; rfl
          by_cases hd2 : d.key ≤ q.start.toDate.key
          · rw [updateStatistics_noop hl2 hd2]
          · have hqmem : q ∈ buildStats (data.filter (fun i =>
                decide (lastP.start.toDate.nextDay.key ≤ i.timestamp.toDate.key) &&
                decide (i.timestamp.toDate.key ≤ d.key))) lastP.sum :=
              List.mem_of_mem_getLast? (by rw [hq]; rfl)
            obtain ⟨j, hj, hqs⟩ := mem_buildStats_start hqmem
            have hjcond := (List.mem_filter.mp hj).2
            simp only [Bool.and_eq_true, decide_eq_true_eq] at hjcond
            have hqdate : q.start.toDate = j.timestamp.toDate := by
              rw [hqs, Timestamp.hourStart_toDate]
            have hemp : data.filter (fun i =>
                decide (q.start.toDate.nextDay.key ≤ i.timestamp.toDate.key) &&
                decide (i.timestamp.toDate.key ≤ d.key)) = [] := by
              rw [List.filter_eq_nil_iff]
              intro i hi hcond
              simp only [Bool.and_eq_true, decide_eq_true_eq] at hcond
              obtain ⟨hc1, hc2⟩ := hcond
              have hgt : q.start.toDate.key < i.timestamp.toDate.key :=
                lt_of_lt_of_le (Date.key_lt_nextDay _) hc1
              have hge_a : lastP.start.toDate.nextDay.key ≤
                  i.timestamp.toDate.key := by
                have h6 : lastP.start.toDate.nextDay.key ≤
                    q.start.toDate.key := by
                  rw [hqdate]; exact hjcond.1
                exact le_trans h6 (le_of_lt hgt)
              have hiivs : i ∈ data.filter (fun i =>
                  decide (lastP.start.toDate.nextDay.key ≤
                    i.timestamp.toDate.key) &&
                  decide (i.timestamp.toDate.key ≤ d.key)) := by
                rw [List.mem_filter]
                exact ⟨hi, by simp [hge_a, hc2]⟩
              obtain ⟨p, hp, hps⟩ : ∃ p ∈ buildStats (data.filter (fun i =>
                  decide (lastP.start.toDate.nextDay.key ≤
                    i.timestamp.toDate.key) &&
                  decide (i.timestamp.toDate.key ≤ d.key))) lastP.sum,
                  p.start = i.timestamp.hourStart := by
                have hmem2 : i.timestamp.hourStart ∈ hourKeys
                    (data.filter (fun i =>
                      decide (lastP.start.toDate.nextDay.key ≤
                        i.timestamp.toDate.key) &&
                      decide (i.timestamp.toDate.key ≤ d.key))) :=
                  mem_hourKeys.mpr ⟨i, hiivs, rfl⟩
                rw [← buildStats_map_start (data.filter (fun i =>
                  decide (lastP.start.toDate.nextDay.key ≤
                    i.timestamp.toDate.key) &&
                  decide (i.timestamp.toDate.key ≤ d.key))) lastP.sum] at hmem2
                obtain ⟨p, hp, hps⟩ := List.mem_map.mp hmem2
                exact ⟨p, hp, hps⟩
              have hple : p.start.key ≤ q.start.key :=
                pairwise_le_getLast (fun r => r.start.key) _
                  (buildStats_pairwise _ lastP.sum) q hq p hp
              rw [hps] at hple
              have h5 := Timestamp.toDate_key_le_of_key_le hple
              rw [Timestamp.hourStart_toDate] at h5
              exact absurd h5 (not_le.mpr hgt)
            have hf2 : fetchOf data q.start.toDate.nextDay d =
                Except.ok [] := by
              simp only [fetchOf, hemp]
            rw [updateStatistics_fetch_empty hl2 hd2 hf2]

/- ### Cost-calculator lemmas and claims -/

/-- Total consumption of an interval list (`sum(i.consumption for i in …)`). -/
def totalConsumption (intervals : List IntervalUsageData) : ℚ :=
  (intervals.map (fun i => i.consumption)).sum

/-- The per-interval rate bucket of the half-open peak window
`[peak_start, peak_end)` evaluated at an interval's starting hour. -/
def touRate (opts : PricingOptions) (h : ℕ) : ℚ :=
  if opts.peakStartD ≤ h ∧ h < opts.peakEndD then opts.peakRateD
  else opts.offPeakRateD

theorem touCost_foldl (opts : PricingOptions) (l : List IntervalUsageData) :
    ∀ a : ℚ,
      l.foldl (fun acc i =>
        if opts.peakStartD ≤ i.timestamp.hour ∧
            i.timestamp.hour < opts.peakEndD
        then acc + i.consumption * opts.peakRateD
        else acc + i.consumption * opts.offPeakRateD) a =
      a + (l.map (fun i => i.consumption * touRate opts i.timestamp.hour)).sum := by
  induction l with
  | nil => intro a; simp
  | cons x rest ih =>
    intro a
    simp only [List.foldl_cons, List.map_cons, List.sum_cons]
    by_cases hx : opts.peakStartD ≤ x.timestamp.hour ∧
        x.timestamp.hour < opts.peakEndD
    · rw [if_pos hx, ih]
      simp only [touRate, if_pos hx]
      ring
    · rw [if_neg hx, ih]
      simp only [touRate, if_neg hx]
      ring

theorem touRate_always_off {opts : PricingOptions}
    (he : opts.peakStartD = opts.peakEndD) (h : ℕ) :
    touRate opts h = opts.offPeakRateD := by
  unfold touRate
  rw [if_neg]
  rintro ⟨h1, h2⟩
  rw [he] at h1
  exact absurd (lt_of_le_of_lt h1 h2) (lt_irrefl _)

/-- C3: in time-of-use mode, the cost of a non-empty interval list is the
rounded sum over intervals of consumption times the half-open-window rate of
the interval's starting hour; an hour exactly at peak_start is peak (when the
window is non-degenerate), one exactly at peak_end is off-peak, and
peak_start = peak_end makes every interval off-peak. -/
theorem dominion_c3 (opts : PricingOptions)
    (intervals : List IntervalUsageData) (bf : Option BillForecast)
    (hne : intervals ≠ []) (hmode : opts.costModeD = CostMode.tou) :
    calculateCost opts intervals bf =
      round2 ((intervals.map
        (fun i => i.consumption * touRate opts i.timestamp.hour)).sum) ∧
    (opts.peakStartD < opts.peakEndD →
      touRate opts opts.peakStartD = opts.peakRateD) ∧
    touRate opts opts.peakEndD = opts.offPeakRateD ∧
    (opts.peakStartD = opts.peakEndD →
      calculateCost opts intervals bf =
        round2 ((intervals.map
          (fun i => i.consumption * opts.offPeakRateD)).sum)) := by
  have hcc : calculateCost opts intervals bf =
      round2 ((intervals.map
        (fun i => i.consumption * touRate opts i.timestamp.hour)).sum) := by
    unfold calculateCost
    rw [if_neg hne, hmode]
    cases bf <;>
      simp only [touCost, touCost_foldl opts intervals 0, zero_add]
  refine ⟨hcc, ?_, ?_, ?_⟩
  · intro hlt
    simp [touRate, hlt]
  · simp [touRate]
  · intro he
    rw [hcc]
    congr 1
    congr 1
    apply List.map_congr_left
    intro i _
    rw [touRate_always_off he]

/-- C4: in api-estimate mode on a non-empty interval list, a present bill
forecast with positive derived rate prices at the derived rate; an absent
forecast, or an absent or zero derived rate, falls back to the fixed-rate
formula. -/
theorem dominion_c4 (opts : PricingOptions)
    (intervals : List IntervalUsageData) (bf : Option BillForecast)
    (hne : intervals ≠ []) (hmode : opts.costModeD = CostMode.api) :
    (∀ b r, bf = some b → b.derived_rate = some r → 0 < r →
      calculateCost opts intervals bf =
        round2 (totalConsumption intervals * r)) ∧
    ((bf = none ∨ ∃ b, bf = some b ∧
        (b.derived_rate = none ∨ b.derived_rate = some 0)) →
      calculateCost opts intervals bf =
        round2 (totalConsumption intervals * opts.fixedRateD)) := by
  constructor
  · rintro b r rfl hdr hpos
    unfold calculateCost
    rw [if_neg hne, hmode]
    simp only [hdr]
    rw [if_neg (ne_of_gt hpos)]
    rfl
  · rintro (rfl | ⟨b, rfl, hdr | hdr⟩)
    · unfold calculateCost
      rw [if_neg hne, hmode]
      rfl
    · unfold calculateCost
      rw [if_neg hne, hmode]
      simp only [hdr]
      rfl
    · unfold calculateCost
      rw [if_neg hne, hmode]
      simp only [hdr, if_true]
      rfl

/-- C5: the cost of an empty interval list is 0 in every mode, and in
fixed-rate mode the cost of any non-negative interval list is the rounded
product of the total consumption and the fixed rate. -/
theorem dominion_c5 (opts : PricingOptions) (bf : Option BillForecast) :
    calculateCost opts [] bf = 0 ∧
    ∀ intervals : List IntervalUsageData,
      (∀ i ∈ intervals, 0 ≤ i.consumption) →
      opts.costModeD = CostMode.fixed →
      calculateCost opts intervals bf =
        round2 (totalConsumption intervals * opts.fixedRateD) := by
  constructor
  · simp [calculateCost]
  · intro intervals _ hmode
    by_cases hne : intervals = []
    · subst hne
      simp only [calculateCost, totalConsumption, round2, List.map_nil,
        List.sum_nil, zero_mul, ite_true, if_pos rfl]
      norm_num
    · unfold calculateCost
      rw [if_neg hne, hmode]
      cases bf <;> rfl

theorem prevDay_same_month {d : Date} (h : d.prevDay.month = d.month) :
    d.prevDay.year = d.year := by
  unfold Date.prevDay at h ⊢
  by_cases h1 : 1 < d.day
  · rw [if_pos h1]
  · rw [if_neg h1] at h
    by_cases h2 : 1 < d.month
    · rw [if_pos h2] at h
      simp only at h
      omega
    · rw [if_neg h2] at h
      simp only at h
      omega

/-- C6: with yesterday = today - 1 day, the month_start used for monthly
aggregation is day 1 of yesterday's month when the months differ, and day 1
of today's month otherwise; in both cases it is day 1 of yesterday's month. -/
theorem dominion_c6 (today : Date) :
    (today.prevDay.month ≠ today.month →
      monthStartOf today = ⟨today.prevDay.year, today.prevDay.month, 1⟩) ∧
    (today.prevDay.month = today.month →
      monthStartOf today = ⟨today.year, today.month, 1⟩) ∧
    monthStartOf today = ⟨today.prevDay.year, today.prevDay.month, 1⟩ := by
  unfold monthStartOf
  by_cases h : today.prevDay.month = today.month
  · rw [if_neg (by simp [h])]
    refine ⟨fun hc => absurd h hc, fun _ => rfl, ?_⟩
    rw [prevDay_same_month h, h]
  · rw [if_pos h]
    exact ⟨fun _ => rfl, fun hc => absurd hc h, rfl⟩

/- ### Error-handling claims -/

/-- C7: a token-expired error with no stored credentials, or with stored
credentials but a failing re-authentication (TFA required, invalid
credentials, connection failure, or any other error), surfaces
`ConfigEntryAuthFailed`; a successful re-authentication re-enters the update
once, so a token-expired error followed by a successful reauth and a
successful fetch yields that fetch's result. -/
theorem dominion_c7 {α : Type} :
    (∀ (o : ReauthOutcome) (rest : List (FetchOutcome α × Bool)),
      runUpdate ((FetchOutcome.tokenExpired, attemptReauth none o) :: rest) =
        some UpdateOutcome.authFailed) ∧
    (∀ (c : String × String) (o : ReauthOutcome), o ≠ ReauthOutcome.success →
      ∀ rest : List (FetchOutcome α × Bool),
      runUpdate ((FetchOutcome.tokenExpired, attemptReauth (some c) o) :: rest) =
        some UpdateOutcome.authFailed) ∧
    (∀ (c : String × String) (rest : List (FetchOutcome α × Bool)),
      runUpdate ((FetchOutcome.tokenExpired,
          attemptReauth (some c) ReauthOutcome.success) :: rest) =
        runUpdate rest) ∧
    (∀ (c : String × String) (a : α) (b : Bool)
        (rest : List (FetchOutcome α × Bool)),
      runUpdate ((FetchOutcome.tokenExpired,
          attemptReauth (some c) ReauthOutcome.success) ::
          (FetchOutcome.ok a, b) :: rest) =
        some (UpdateOutcome.success a)) := by
  refine ⟨?_, ?_, ?_, ?_⟩
  · intro o rest
    simp [runUpdate, attemptReauth]
  · intro c o ho rest
    cases o with
    | success => exact absurd rfl ho
    | tfaRequired => simp [runUpdate, attemptReauth]
    | invalidCredentials => simp [runUpdate, attemptReauth]
    | cannotConnect => simp [runUpdate, attemptReauth]
    | unexpected => simp [runUpdate, attemptReauth]
  · intro c rest
    simp [runUpdate, attemptReauth]
  · intro c a b rest
    simp [runUpdate, attemptReauth]

/-- A fetch failure on the statistics path leaves the store untouched, in
both the backfill and the incremental-update branch. -/
theorem insertStatistics_error (e : ApiFailure) (store : List StatisticData)
    (today data_date : Date) :
    insertStatistics (fun _ _ => Except.error e) store today data_date =
      store := by
  unfold insertStatistics
  by_cases hs : store = []
  · rw [if_pos hs, hs, backfillStatistics_eq]
  · rw [if_neg hs]
    cases hl : store.getLast? with
    | none => simp [updateStatistics, hl]
    | some lastP =>
      by_cases hd : data_date.key ≤ lastP.start.toDate.key
      · rw [updateStatistics_noop hl hd]
      · rw [updateStatistics_fetch_error hl hd rfl]

/-- C8: when the statistics-path fetch fails, the refresh cycle still
completes successfully, no statistics are written (the store is unchanged),
and the returned `DominionEnergyData` is exactly what any other
statistics-path outcome would have produced. -/
theorem dominion_c8 (opts : PricingOptions) (today : Date)
    (ds ms : List IntervalUsageData) (ff : Except ApiFailure BillForecast)
    (e : ApiFailure) (store : List StatisticData) :
    ∃ r : DominionEnergyData,
      refreshCycle opts today (Except.ok ds) (Except.ok ms) ff
        (fun _ _ => Except.error e) store = Except.ok (r, store) ∧
      ∀ sf : Date → Date → Except ApiFailure (List IntervalUsageData),
        Except.map Prod.fst
            (refreshCycle opts today (Except.ok ds) (Except.ok ms) ff sf
              store) =
          Except.ok r := by
  by_cases hm : (monthStartOf today).key < today.prevDay.key
  · refine ⟨{ intervals := ds
              latest_interval := ds.getLast?
              daily_total := (ds.map (fun i => i.consumption)).sum
              monthly_total := (ms.map (fun i => i.consumption)).sum
              daily_cost := calculateCost opts ds ff.toOption
              monthly_cost := calculateCost opts ms ff.toOption
              bill_forecast := ff.toOption
              data_date := today.prevDay
              month_start_date := monthStartOf today
              month_end_date := today.prevDay }, ?_, ?_⟩
    · simp only [refreshCycle]
      rw [if_pos hm, insertStatistics_error]
    · intro sf
      simp only [refreshCycle]
      rw [if_pos hm]
      rfl
  · refine ⟨{ intervals := ds
              latest_interval := ds.getLast?
              daily_total := (ds.map (fun i => i.consumption)).sum
              monthly_total := (ds.map (fun i => i.consumption)).sum
              daily_cost := calculateCost opts ds ff.toOption
              monthly_cost := calculateCost opts ds ff.toOption
              bill_forecast := ff.toOption
              data_date := today.prevDay
              month_start_date := monthStartOf today
              month_end_date := today.prevDay }, ?_, ?_⟩
    · simp only [refreshCycle]
      rw [if_neg hm, insertStatistics_error]
    · intro sf
      simp only [refreshCycle]
      rw [if_neg hm]
      rfl

/-- C9: when the bill-forecast fetch fails, the refresh cycle completes
successfully with `bill_forecast = none`, and in api-estimate mode both cost
figures fall back to the fixed-rate formula. -/
theorem dominion_c9 (opts : PricingOptions) (today : Date)
    (ds ms : List IntervalUsageData) (e : ApiFailure)
    (sf : Date → Date → Except ApiFailure (List IntervalUsageData))
    (store : List StatisticData) :
    ∃ (r : DominionEnergyData) (store2 : List StatisticData),
      refreshCycle opts today (Except.ok ds) (Except.ok ms)
        (Except.error e) sf store = Except.ok (r, store2) ∧
      r.bill_forecast = none ∧
      (opts.costModeD = CostMode.api → ds ≠ [] →
        r.daily_cost = round2 (totalConsumption ds * opts.fixedRateD)) ∧
      (opts.costModeD = CostMode.api →
        ∀ mIvs, mIvs = (if (monthStartOf today).key < today.prevDay.key
            then ms else ds) → mIvs ≠ [] →
        r.monthly_cost = round2 (totalConsumption mIvs * opts.fixedRateD)) := by
  have hfb : ∀ ivs : List IntervalUsageData, opts.costModeD = CostMode.api →
      ivs ≠ [] → calculateCost opts ivs none =
        round2 (totalConsumption ivs * opts.fixedRateD) := by
    intro ivs hmode hne
    unfold calculateCost
    rw [if_neg hne, hmode]
    rfl
  by_cases hm : (monthStartOf today).key < today.prevDay.key
  · refine ⟨{ intervals := ds
              latest_interval := ds.getLast?
              daily_total := (ds.map (fun i => i.consumption)).sum
              monthly_total := (ms.map (fun i => i.consumption)).sum
              daily_cost := calculateCost opts ds none
              monthly_cost := calculateCost opts ms none
              bill_forecast := none
              data_date := today.prevDay
              month_start_date := monthStartOf today
              month_end_date := today.prevDay },
      insertStatistics sf store today today.prevDay, ?_, rfl, ?_, ?_⟩
    · simp only [refreshCycle]
      rw [if_pos hm]
      rfl
    · intro hmode hne
      exact hfb ds hmode hne
    · intro hmode mIvs hmi hne
      rw [if_pos hm] at hmi
      subst hmi
      exact hfb _ hmode hne
  · refine ⟨{ intervals := ds
              latest_interval := ds.getLast?
              daily_total := (ds.map (fun i => i.consumption)).sum
              monthly_total := (ds.map (fun i => i.consumption)).sum
              daily_cost := calculateCost opts ds none
              monthly_cost := calculateCost opts ds none
              bill_forecast := none
              data_date := today.prevDay
              month_start_date := monthStartOf today
              month_end_date := today.prevDay },
      insertStatistics sf store today today.prevDay, ?_, rfl, ?_, ?_⟩
    · simp only [refreshCycle]
      rw [if_neg hm]
      rfl
    · intro hmode hne
      exact hfb ds hmode hne
    · intro hmode mIvs hmi hne
      rw [if_neg hm] at hmi
      subst hmi
      exact hfb _ hmode hne

/- ### Concrete witnesses -/

def c1Fetch : Date → Date → Except ApiFailure (List IntervalUsageData) :=
  fun _ _ => Except.ok
    [⟨⟨2024, 3, 1, 10, 0, 0, 0⟩, 1⟩, ⟨⟨2024, 3, 1, 10, 30, 0, 0⟩, 2⟩,
     ⟨⟨2024, 3, 1, 11, 0, 0, 0⟩, 3 / 2⟩]

def c1Store : List StatisticData := backfillStatistics c1Fetch ⟨2024, 3, 2⟩

theorem dominion_c1_witness :
    Reachable c1Store ∧
    (c1Store.Pairwise (fun p q => p.start.key < q.start.key ∧ p.sum ≤ q.sum) ∧
      ∀ p ∈ c1Store, p.sum =
        ((c1Store.filter (fun q => decide (q.start.key ≤ p.start.key))).map
          (fun q => q.state)).sum) := by
  have hn : FetchNonneg c1Fetch := by
    intro a b ivs hf i hi
    simp only [c1Fetch, Except.ok.injEq] at hf
    subst hf
    fin_cases hi <;> norm_num
  have hre : Reachable c1Store := Reachable.backfill c1Fetch ⟨2024, 3, 2⟩ hn
  exact ⟨hre, dominion_c1 c1Store hre⟩

theorem dominion_c2_witness :
    updateStatistics (fun _ _ => Except.ok [])
        [⟨⟨2024, 3, 5, 0, 0, 0, 0⟩, 1, 1⟩] ⟨2024, 3, 4⟩ =
      ([⟨⟨2024, 3, 5, 0, 0, 0, 0⟩, 1, 1⟩], none) ∧
    (updateStatistics (fetchOf [⟨⟨2024, 3, 6, 10, 0, 0, 0⟩, 2⟩])
        ((updateStatistics (fetchOf [⟨⟨2024, 3, 6, 10, 0, 0, 0⟩, 2⟩])
          [⟨⟨2024, 3, 5, 23, 0, 0, 0⟩, 1, 1⟩] ⟨2024, 3, 6⟩).1) ⟨2024, 3, 6⟩).1 =
      (updateStatistics (fetchOf [⟨⟨2024, 3, 6, 10, 0, 0, 0⟩, 2⟩])
        [⟨⟨2024, 3, 5, 23, 0, 0, 0⟩, 1, 1⟩] ⟨2024, 3, 6⟩).1 :=
  ⟨dominion_c2.1 _ _ _ _ rfl (by decide),
   dominion_c2.2 [⟨⟨2024, 3, 6, 10, 0, 0, 0⟩, 2⟩]
     [⟨⟨2024, 3, 5, 23, 0, 0, 0⟩, 1, 1⟩] ⟨2024, 3, 6⟩⟩

def c3Opts : PricingOptions :=
  ⟨some CostMode.tou, none, some (15 / 100), some (8 / 100), some 14, some 19⟩

def c3Ivs : List IntervalUsageData :=
  [⟨⟨2024, 3, 1, 7, 0, 0, 0⟩, 1⟩, ⟨⟨2024, 3, 1, 19, 30, 0, 0⟩, 2⟩]

theorem dominion_c3_witness :
    (calculateCost c3Opts c3Ivs none =
      round2 ((c3Ivs.map
        (fun i => i.consumption * touRate c3Opts i.timestamp.hour)).sum) ∧
    (c3Opts.peakStartD < c3Opts.peakEndD →
      touRate c3Opts c3Opts.peakStartD = c3Opts.peakRateD) ∧
    touRate c3Opts c3Opts.peakEndD = c3Opts.offPeakRateD ∧
    (c3Opts.peakStartD = c3Opts.peakEndD →
      calculateCost c3Opts c3Ivs none =
        round2 ((c3Ivs.map
          (fun i => i.consumption * c3Opts.offPeakRateD)).sum))) ∧
    calculateCost c3Opts c3Ivs none = 24 / 100 :=
  ⟨dominion_c3 c3Opts c3Ivs none (by decide) rfl, by
    norm_num [calculateCost, c3Opts, c3Ivs, touCost, round2,
      PricingOptions.costModeD, PricingOptions.peakStartD,
      PricingOptions.peakEndD, PricingOptions.peakRateD,
      PricingOptions.offPeakRateD, DEFAULT_PEAK_START_HOUR,
      DEFAULT_PEAK_END_HOUR, DEFAULT_PEAK_RATE, DEFAULT_OFF_PEAK_RATE]
    simp⟩

def c4Opts : PricingOptions :=
  ⟨some CostMode.api, some (12 / 100), none, none, none, none⟩

def c4Ivs : List IntervalUsageData := [⟨⟨2024, 3, 1, 7, 0, 0, 0⟩, 50⟩]

theorem dominion_c4_witness :
    ((∀ b r, some (⟨120, 800⟩ : BillForecast) = some b →
        b.derived_rate = some r → 0 < r →
        calculateCost c4Opts c4Ivs (some ⟨120, 800⟩) =
          round2 (totalConsumption c4Ivs * r)) ∧
      ((some (⟨120, 800⟩ : BillForecast) = none ∨
        ∃ b, some (⟨120, 800⟩ : BillForecast) = some b ∧
          (b.derived_rate = none ∨ b.derived_rate = some 0)) →
        calculateCost c4Opts c4Ivs (some ⟨120, 800⟩) =
          round2 (totalConsumption c4Ivs * c4Opts.fixedRateD))) ∧
    calculateCost c4Opts c4Ivs (some ⟨120, 800⟩) = 15 / 2 :=
  ⟨dominion_c4 c4Opts c4Ivs (some ⟨120, 800⟩) (by decide) rfl, by
    norm_num [calculateCost, c4Opts, c4Ivs, BillForecast.derived_rate,
      round2, PricingOptions.costModeD, PricingOptions.fixedRateD]⟩

def c5Opts : PricingOptions :=
  ⟨some CostMode.fixed, some (12 / 100), none, none, none, none⟩

theorem dominion_c5_witness :
    (calculateCost c5Opts [] none = 0 ∧
      ∀ intervals : List IntervalUsageData,
        (∀ i ∈ intervals, 0 ≤ i.consumption) →
        c5Opts.costModeD = CostMode.fixed →
        calculateCost c5Opts intervals none =
          round2 (totalConsumption intervals * c5Opts.fixedRateD)) ∧
    calculateCost c5Opts [⟨⟨2024, 3, 1, 7, 0, 0, 0⟩, 10⟩] none = 12 / 10 :=
  ⟨dominion_c5 c5Opts none,
   ((dominion_c5 c5Opts none).2 [⟨⟨2024, 3, 1, 7, 0, 0, 0⟩, 10⟩]
       (by intro i hi; fin_cases hi; norm_num) rfl).trans (by
    norm_num [totalConsumption, round2, c5Opts, PricingOptions.fixedRateD,
      DEFAULT_FIXED_RATE])⟩

theorem dominion_c6_witness :
    ((⟨2024, 3, 2⟩ : Date).prevDay.month ≠ (⟨2024, 3, 2⟩ : Date).month →
      monthStartOf ⟨2024, 3, 2⟩ =
        ⟨(⟨2024, 3, 2⟩ : Date).prevDay.year,
         (⟨2024, 3, 2⟩ : Date).prevDay.month, 1⟩) ∧
    ((⟨2024, 3, 2⟩ : Date).prevDay.month = (⟨2024, 3, 2⟩ : Date).month →
      monthStartOf ⟨2024, 3, 2⟩ = ⟨2024, 3, 1⟩) ∧
    monthStartOf ⟨2024, 3, 2⟩ =
      ⟨(⟨2024, 3, 2⟩ : Date).prevDay.year,
       (⟨2024, 3, 2⟩ : Date).prevDay.month, 1⟩ :=
  dominion_c6 ⟨2024, 3, 2⟩

theorem dominion_c7_witness :
    runUpdate ((FetchOutcome.tokenExpired,
        attemptReauth none ReauthOutcome.success) ::
        ([] : List (FetchOutcome ℕ × Bool))) =
      some UpdateOutcome.authFailed ∧
    runUpdate ((FetchOutcome.tokenExpired,
        attemptReauth (some ("user", "pass")) ReauthOutcome.tfaRequired) ::
        ([] : List (FetchOutcome ℕ × Bool))) =
      some UpdateOutcome.authFailed ∧
    runUpdate [(FetchOutcome.tokenExpired,
        attemptReauth (some ("user", "pass")) ReauthOutcome.success),
        (FetchOutcome.ok 5, false)] =
      some (UpdateOutcome.success 5) :=
  ⟨dominion_c7.1 ReauthOutcome.success [],
   dominion_c7.2.1 ("user", "pass") ReauthOutcome.tfaRequired (by decide) [],
   dominion_c7.2.2.2 ("user", "pass") 5 false []⟩

theorem dominion_c8_witness :
    ∃ r : DominionEnergyData,
      refreshCycle c5Opts ⟨2024, 3, 2⟩
          (Except.ok [⟨⟨2024, 3, 1, 7, 0, 0, 0⟩, 1⟩]) (Except.ok [])
          (Except.error ApiFailure.apiError)
          (fun _ _ => Except.error ApiFailure.apiError)
          [⟨⟨2024, 2, 28, 23, 0, 0, 0⟩, 1, 1⟩] =
        Except.ok (r, [⟨⟨2024, 2, 28, 23, 0, 0, 0⟩, 1, 1⟩]) ∧
      ∀ sf : Date → Date → Except ApiFailure (List IntervalUsageData),
        Except.map Prod.fst
            (refreshCycle c5Opts ⟨2024, 3, 2⟩
              (Except.ok [⟨⟨2024, 3, 1, 7, 0, 0, 0⟩, 1⟩]) (Except.ok [])
              (Except.error ApiFailure.apiError) sf
              [⟨⟨2024, 2, 28, 23, 0, 0, 0⟩, 1, 1⟩]) =
          Except.ok r :=
  dominion_c8 c5Opts ⟨2024, 3, 2⟩ [⟨⟨2024, 3, 1, 7, 0, 0, 0⟩, 1⟩] []
    (Except.error ApiFailure.apiError) ApiFailure.apiError
    [⟨⟨2024, 2, 28, 23, 0, 0, 0⟩, 1, 1⟩]

theorem dominion_c9_witness :
    ∃ (r : DominionEnergyData) (store2 : List StatisticData),
      refreshCycle c4Opts ⟨2024, 3, 2⟩
          (Except.ok [⟨⟨2024, 3, 1, 7, 0, 0, 0⟩, 1⟩]) (Except.ok [])
          (Except.error ApiFailure.apiError)
          (fun _ _ => Except.ok []) [] =
        Except.ok (r, store2) ∧
      r.bill_forecast = none ∧
      (c4Opts.costModeD = CostMode.api →
        [⟨⟨2024, 3, 1, 7, 0, 0, 0⟩, 1⟩] ≠
          ([] : List IntervalUsageData) →
        r.daily_cost = round2
          (totalConsumption [⟨⟨2024, 3, 1, 7, 0, 0, 0⟩, 1⟩] *
            c4Opts.fixedRateD)) ∧
      (c4Opts.costModeD = CostMode.api →
        ∀ mIvs, mIvs = (if (monthStartOf ⟨2024, 3, 2⟩).key <
            (⟨2024, 3, 2⟩ : Date).prevDay.key
            then ([] : List IntervalUsageData)
            else [⟨⟨2024, 3, 1, 7, 0, 0, 0⟩, 1⟩]) → mIvs ≠ [] →
        r.monthly_cost = round2
          (totalConsumption mIvs * c4Opts.fixedRateD)) :=
  dominion_c9 c4Opts ⟨2024, 3, 2⟩ [⟨⟨2024, 3, 1, 7, 0, 0, 0⟩, 1⟩] []
    ApiFailure.apiError (fun _ _ => Except.ok []) []

theorem dominion_c10_witness :
    (updateStatistics (fetchOf [⟨⟨2024, 3, 6, 10, 0, 0, 0⟩, 2⟩])
        [⟨⟨2024, 3, 5, 23, 0, 0, 0⟩, 1, 1⟩] ⟨2024, 3, 6⟩).2 =
      some ((⟨2024, 3, 5⟩ : Date).nextDay, ⟨2024, 3, 6⟩) ∧
    ∃ new, (updateStatistics (fetchOf [⟨⟨2024, 3, 6, 10, 0, 0, 0⟩, 2⟩])
        [⟨⟨2024, 3, 5, 23, 0, 0, 0⟩, 1, 1⟩] ⟨2024, 3, 6⟩).1 =
      [⟨⟨2024, 3, 5, 23, 0, 0, 0⟩, 1, 1⟩] ++ new ∧
      ∀ p ∈ new, (⟨2024, 3, 5⟩ : Date).key < p.start.toDate.key :=
  dominion_c10 (fetchOf [⟨⟨2024, 3, 6, 10, 0, 0, 0⟩, 2⟩])
    [⟨⟨2024, 3, 5, 23, 0, 0, 0⟩, 1, 1⟩] ⟨2024, 3, 6⟩
    ⟨⟨2024, 3, 5, 23, 0, 0, 0⟩, 1, 1⟩ rfl
    (fetchOf_inRange [⟨⟨2024, 3, 6, 10, 0, 0, 0⟩, 2⟩]) (by decide)
